import Mathlib

/-!
A shallow embedding of the collaborative-editor synchronization core
(operation model, transform algebra, document sequencer, and the socket
servers' leave handling), together with theorems checking the
natural-language specification against it.

Text buffers are modelled as `List Char`; JavaScript numbers occurring in
operation payloads are modelled as `Int` (all arithmetic in the source is
integer arithmetic on array indices).  JavaScript `String.prototype.slice`
(also used on arrays) is modelled faithfully, including its treatment of
negative and out-of-range arguments, since the source relies on it.
-/

/-- ECMAScript `slice(start, stop)` on a list: negative indices count from
the end, all indices are clamped to `[0, length]`, and an empty list results
when the effective start is at or past the effective end. -/
def jsSlice (l : List α) (start stop : Int) : List α :=
  let len : Int := l.length
  let s : Int := if start < 0 then max (len + start) 0 else min start len
  let e : Int := if stop < 0 then max (len + stop) 0 else min stop len
  (l.take e.toNat).drop s.toNat

/-- ECMAScript one-argument `slice(start)`: everything from `start` on. -/
def jsSliceFrom (l : List α) (start : Int) : List α :=
  jsSlice l start l.length

/-- `TextOperation` from `types.ts`: `type` is a runtime string
(`"insert" | "delete" | "retain"` in the TypeScript union), `text` and
`length` are optional fields. -/
structure TextOperation where
  type : String
  position : Int
  text : Option (List Char) := none
  length : Option Int := none
deriving Repr, DecidableEq

/-- `DocumentOperation` from `types.ts` (the `version` field is the base
version the author issued the batch against; the sequencer rewrites it). -/
structure DocumentOperation where
  id : String
  documentId : String
  userId : String
  version : Int
  operations : List TextOperation
  timestamp : Int
deriving Repr, DecidableEq

/-- `applyOperation` from `collaboration.ts`: apply a single op to a string.
`op.text || ""` and `op.length || 0` coincide with `Option.getD` (the JS
falsy fallbacks `""` and `0` equal the defaults). -/
def applyOperation (content : List Char) (op : TextOperation) : List Char :=
  if op.type = "insert" then
    if op.position < 0 ∨ op.position > (content.length : Int) then
      -- clamp to valid range instead of crashing
      let pos : Int := max 0 (min op.position (content.length : Int))
      jsSlice content 0 pos ++ op.text.getD [] ++ jsSliceFrom content pos
    else
      jsSlice content 0 op.position ++ op.text.getD [] ++ jsSliceFrom content op.position
  else if op.type = "delete" then
    let deleteEnd : Int := min (op.position + op.length.getD 0) (content.length : Int)
    jsSlice content 0 op.position ++ jsSliceFrom content deleteEnd
  else if op.type = "retain" then
    -- retain doesn't change the document
    content
  else
    content

/-- `applyOperations` from `collaboration.ts`: apply all ops of a batch in
sequence against the evolving buffer. -/
def applyOperations (content : List Char) (docOp : DocumentOperation) : List Char :=
  docOp.operations.foldl applyOperation content

/-- `transformOperation` from `collaboration.ts`: transform `opA` against
`opB` so `opA` can be applied after `opB`. -/
def transformOperation (opA : TextOperation) (opB : TextOperation) : TextOperation :=
  if opA.type = "insert" ∧ opB.type = "insert" then
    if opA.position ≤ opB.position then
      opA
    else
      { opA with position := opA.position + ((opB.text.getD []).length : Int) }
  else if opA.type = "insert" ∧ opB.type = "delete" then
    if opA.position ≤ opB.position then
      opA
    else if opA.position ≥ opB.position + opB.length.getD 0 then
      { opA with position := opA.position - opB.length.getD 0 }
    else
      -- insert falls inside deleted range, move to deletion start
      { opA with position := opB.position }
  else if opA.type = "delete" ∧ opB.type = "insert" then
    if opA.position ≥ opB.position then
      { opA with position := opA.position + ((opB.text.getD []).length : Int) }
    else if opA.position + opA.length.getD 0 ≤ opB.position then
      opA
    else
      -- deletion range spans the insertion point
      { opA with length := some (opA.length.getD 0 + ((opB.text.getD []).length : Int)) }
  else if opA.type = "delete" ∧ opB.type = "delete" then
    let aEnd : Int := opA.position + opA.length.getD 0
    let bEnd : Int := opB.position + opB.length.getD 0
    if aEnd ≤ opB.position then
      opA
    else if opA.position ≥ bEnd then
      { opA with position := opA.position - opB.length.getD 0 }
    else
      -- overlapping deletes
      let overlapStart : Int := max opA.position opB.position
      let overlapEnd : Int := min aEnd bEnd
      let overlapLen : Int := overlapEnd - overlapStart
      let newPos : Int := min opA.position opB.position
      let newLen : Int := opA.length.getD 0 - overlapLen
      if newLen ≤ 0 then
        { type := "retain", position := 0, text := none, length := some 0 }
      else
        { opA with position := newPos, length := some newLen }
  else
    opA

/-- `transformDocumentOperation` from `collaboration.ts`: transform every
element of `opsA` against every element of `opsB`, in `opsB`'s order. -/
def transformDocumentOperation (opsA : List TextOperation) (opsB : List TextOperation) :
    List TextOperation :=
  opsB.foldl (fun transformed opB => transformed.map (fun opA => transformOperation opA opB)) opsA

/-- `ServerDocumentState` from `collaboration.ts`.  The private `pendingOps`
map is declared in the source but never read or written by any method, so it
is omitted.  The constructor sets `history := []`. -/
structure ServerDocumentState where
  content : List Char
  version : Int
  history : List DocumentOperation := []
deriving Repr, DecidableEq

/-- The record returned by `receiveOperation` on success. -/
structure ReceiveResult where
  transformed : DocumentOperation
  newContent : List Char
  newVersion : Int
deriving Repr, DecidableEq

/-- The shared tail of `receiveOperation` (everything after the version
checks): apply the possibly transformed operation, bump the version, stamp
the canonical op, push it onto history and trim history to the last 100
entries via `slice(-100)`. -/
def ServerDocumentState.acceptOperation (s : ServerDocumentState) (docOp : DocumentOperation) :
    Option ReceiveResult × ServerDocumentState :=
  let newContent := applyOperations s.content docOp
  let newVersion := s.version + 1
  let transformed : DocumentOperation := { docOp with version := newVersion }
  let pushed := s.history ++ [transformed]
  let trimmed := if pushed.length > 100 then jsSliceFrom pushed (-100) else pushed
  (some { transformed := transformed, newContent := newContent, newVersion := newVersion },
   { content := newContent, version := newVersion, history := trimmed })

/-- `ServerDocumentState.receiveOperation` from `collaboration.ts`, as a
state-passing function: returns the method's return value (`null` becomes
`none`) together with the post-call state. -/
def ServerDocumentState.receiveOperation (s : ServerDocumentState) (docOp : DocumentOperation) :
    Option ReceiveResult × ServerDocumentState :=
  if docOp.version < s.version then
    let missedOps := s.history.filter
      (fun h => decide (h.version ≥ docOp.version) && (h.userId != docOp.userId))
    let transformedOps := missedOps.foldl
      (fun transformed missed => transformDocumentOperation transformed missed.operations)
      docOp.operations
    s.acceptOperation { docOp with operations := transformedOps }
  else if docOp.version > s.version then
    -- client is ahead of us?? shouldn't happen but lets not crash
    (none, s)
  else
    s.acceptOperation docOp

/-! ### The standalone socket server (second server variant)

The repository contains a second, standalone socket server whose
`handleLeave` flushes and retires a document's in-memory state when the last
participant leaves.  Its document map holds plain `DocumentState` records
extended with bookkeeping; of those fields only `content`, `version` and
`lastSave` are touched by the handlers modelled here, the rest (`id`,
`title`, `language`, `sockets`) are never read by them and are omitted. -/

/-- `CursorPosition` from `types.ts`. -/
structure CursorPosition where
  line : Int
  ch : Int
deriving Repr, DecidableEq

/-- `SelectionRange` from `types.ts`. -/
structure SelectionRange where
  anchor : CursorPosition
  head : CursorPosition
deriving Repr, DecidableEq

/-- `UserPresence` from `types.ts`. -/
structure UserPresence where
  userId : String
  name : String
  color : String
  cursor : Option CursorPosition
  selection : Option SelectionRange
  lastActive : Int
deriving Repr, DecidableEq

/-- The per-document in-memory state of the standalone server
(`ServerDocumentState extends DocumentState` there). -/
structure StandaloneDocState where
  content : List Char
  version : Int
  lastSave : Int
deriving Repr, DecidableEq

/-- A JS `Map` as an association list in insertion order. -/
def mapLookup (k : String) (m : List (String × β)) : Option β :=
  (m.find? (fun p => p.1 == k)).map (fun p => p.2)

/-- JS `Map.delete`. -/
def mapRemove (k : String) (m : List (String × β)) : List (String × β) :=
  m.filter (fun p => p.1 != k)

/-- JS `Map.set` on an existing key (in-place update keeping order). -/
def mapSet (k : String) (v : β) (m : List (String × β)) : List (String × β) :=
  if (m.find? (fun p => p.1 == k)).isSome then
    m.map (fun p => if p.1 == k then (k, v) else p)
  else
    m ++ [(k, v)]

/-- The outward effects of the standalone server's leave handling: socket
broadcasts and the database write issued by `saveToDb` (the prisma update
request carrying the document's content and version). -/
inductive SocketEvent where
  | presenceLeft (documentId : String) (userId : String)
  | presenceUpdate (documentId : String) (users : List UserPresence)
  | dbSaveRequest (documentId : String) (content : List Char) (version : Int)
deriving Repr, DecidableEq

/-- `handleLeave` of the standalone socket server, as a pure function on the
two server maps, also returning the emitted effects.  The source runs
`saveToDb(...).then(() => documentStates.delete(...))`; `saveToDb` never
rejects (it catches internally), so the deletion always follows the save
request and the pair is modelled as one sequential step. -/
def handleLeave (roomUsers : List (String × List (String × UserPresence)))
    (documentStates : List (String × StandaloneDocState))
    (socketId : String) (documentId : String) :
    List (String × List (String × UserPresence)) ×
      List (String × StandaloneDocState) × List SocketEvent :=
  match mapLookup documentId roomUsers with
  | none => (roomUsers, documentStates, [])
  | some room =>
    match mapLookup socketId room with
    | none => (roomUsers, documentStates, [])
    | some user =>
      let room' := mapRemove socketId room
      let events := [SocketEvent.presenceLeft documentId user.userId,
                     SocketEvent.presenceUpdate documentId (room'.map (fun p => p.2))]
      if room'.length = 0 then
        let roomUsers' := mapRemove documentId roomUsers
        match mapLookup documentId documentStates with
        | some st =>
          (roomUsers', mapRemove documentId documentStates,
           events ++ [SocketEvent.dbSaveRequest documentId st.content st.version])
        | none => (roomUsers', documentStates, events)
      else
        (mapSet documentId room' roomUsers, documentStates, events)

/-! ### Driving a sequencer through a list of operations -/

/-- Feed a list of operations through one `ServerDocumentState` in order,
collecting the canonical (accepted) results. -/
def runOps : ServerDocumentState → List DocumentOperation →
    ServerDocumentState × List DocumentOperation
  | s, [] => (s, [])
  | s, op :: rest =>
    match s.receiveOperation op with
    | (some r, s₁) =>
      let p := runOps s₁ rest
      (p.1, r.transformed :: p.2)
    | (none, s₁) => runOps s₁ rest

/-- The last `k` elements of a list (all of it when it is shorter). -/
def lastN (k : Nat) (l : List α) : List α := l.drop (l.length - k)

/-- Following the words of the specification, not the source (for the
refinement check of claim C7): a delete is said to remove the range
`[op.position, min(op.position+op.length, len(content)))` with out-of-range
positions clamped to `[0, len(content)]`. -/
def specClampedDelete (content : List Char) (pos : Int) (len : Int) : List Char :=
  let bound : Int := content.length
  let s : Int := max 0 (min pos bound)
  let e : Int := max 0 (min (pos + len) bound)
  content.take s.toNat ++ content.drop (max s e).toNat

/-! ### Scope predicates and concrete inputs used by the claims -/

/-- An insert whose position lies inside the buffer, as the spec's data-model
invariant demands (`position ≥ 0`, within `[0, len(buffer)]`). -/
def InRangeInsert (l : List Char) (op : TextOperation) : Prop :=
  op.type = "insert" ∧ 0 ≤ op.position ∧ op.position ≤ (l.length : Int)

/-- A delete whose range lies inside the buffer. -/
def InRangeDelete (l : List Char) (op : TextOperation) : Prop :=
  op.type = "delete" ∧ 0 ≤ op.position ∧ 0 ≤ op.length.getD 0 ∧
    op.position + op.length.getD 0 ≤ (l.length : Int)

/-- The pairs of in-range insert/delete operations on buffer `l` for which
the transform algebra does converge: two inserts at distinct positions, an
insert and a delete whose range does not strictly contain the insert point,
and any two deletes. -/
def ConvergentPair (l : List Char) (opA : TextOperation) (opB : TextOperation) : Prop :=
  (InRangeInsert l opA ∧ InRangeInsert l opB ∧ opA.position ≠ opB.position) ∨
  (InRangeInsert l opA ∧ InRangeDelete l opB ∧
    ¬(opB.position < opA.position ∧ opA.position < opB.position + opB.length.getD 0)) ∨
  (InRangeDelete l opA ∧ InRangeInsert l opB ∧
    ¬(opA.position < opB.position ∧ opB.position < opA.position + opA.length.getD 0)) ∨
  (InRangeDelete l opA ∧ InRangeDelete l opB)

/-- Scenario A, client 1's batch: insert `"X"` at position 1, baseVersion 0. -/
def scenOp1 : DocumentOperation :=
  { id := "o1", documentId := "d", userId := "1", version := 0,
    operations := [{ type := "insert", position := 1, text := some ['X'] }], timestamp := 0 }

/-- Scenario A, client 2's batch: delete length 1 at position 0, baseVersion 0. -/
def scenOp2 : DocumentOperation :=
  { id := "o2", documentId := "d", userId := "2", version := 0,
    operations := [{ type := "delete", position := 0, length := some 1 }], timestamp := 0 }

/-- Scenario A's starting sequencer state: content `"abc"`, version 0. -/
def scenState : ServerDocumentState := { content := ['a', 'b', 'c'], version := 0 }

/-- A sequencer state whose oldest retained history entry has version 2
(entries for versions below 2 are no longer retained). -/
def staleState : ServerDocumentState :=
  { content := ['a', 'b', 'c', 'd'], version := 3,
    history := [{ id := "h1", documentId := "d", userId := "u1", version := 2,
                  operations := [{ type := "insert", position := 0, text := some ['Z'] }],
                  timestamp := 0 }] }

/-- An operation whose baseVersion 0 predates `staleState`'s oldest retained
history entry (version 2). -/
def staleOp : DocumentOperation :=
  { id := "o9", documentId := "d", userId := "u2", version := 0,
    operations := [{ type := "delete", position := 1, length := some 1 }], timestamp := 0 }

/-- A participant used for the leave-handling claims. -/
def leaveUser : UserPresence :=
  { userId := "u1", name := "Ann", color := "#f87171", cursor := none, selection := none,
    lastActive := 0 }

/-- A presence map in which `leaveUser`'s socket is the only participant of
document `"doc1"`. -/
def leaveRoomUsers : List (String × List (String × UserPresence)) :=
  [("doc1", [("sock1", leaveUser)])]

/-- A document-state map holding state for `"doc1"`. -/
def leaveDocStates : List (String × StandaloneDocState) :=
  [("doc1", { content := ['h', 'i'], version := 7, lastSave := 0 })]

/-! ### Basic facts about the JS slice model and `applyOperation` -/

theorem jsSlice_zero (l : List α) (p : Int) (hp : 0 ≤ p) :
    jsSlice l 0 p = l.take p.toNat := by
  unfold jsSlice
  simp only
  rw [if_neg (by omega), if_neg (by omega)]
  rw [min_eq_left (Int.natCast_nonneg _), Int.toNat_zero, List.drop_zero]
  rcases le_or_lt p (l.length : Int) with h | h
  · rw [min_eq_left h]
  · rw [min_eq_right h.le, Int.toNat_natCast, List.take_length,
      List.take_of_length_le (by omega)]

theorem jsSliceFrom_nonneg (l : List α) (p : Int) (hp : 0 ≤ p) :
    jsSliceFrom l p = l.drop p.toNat := by
  unfold jsSliceFrom jsSlice
  simp only
  rw [if_neg (by omega), if_neg (by omega), min_self]
  simp only [Int.toNat_natCast, List.take_length]
  rcases le_or_lt p (l.length : Int) with h | h
  · rw [min_eq_left h]
  · rw [min_eq_right h.le, Int.toNat_natCast, List.drop_length,
      List.drop_eq_nil_of_le (by omega)]

theorem apply_delete (l : List Char) (p : Int) (t : Option (List Char)) (k : Option Int)
    (hp : 0 ≤ p) (hk : 0 ≤ k.getD 0) :
    applyOperation l { type := "delete", position := p, text := t, length := k } =
      l.take p.toNat ++ l.drop (p.toNat + (k.getD 0).toNat) := by
  show jsSlice l 0 p ++ jsSliceFrom l (min (p + k.getD 0) (l.length : Int)) = _
  rw [jsSlice_zero l p hp]
  rcases le_or_lt (p + k.getD 0) (l.length : Int) with h | h
  · rw [min_eq_left h, jsSliceFrom_nonneg l _ (by omega)]
    have he : (p + k.getD 0).toNat = p.toNat + (k.getD 0).toNat := by omega
    rw [he]
  · rw [min_eq_right h.le, jsSliceFrom_nonneg l _ (by omega)]
    rw [List.drop_eq_nil_of_le (show l.length ≤ p.toNat + (k.getD 0).toNat by omega),
      List.drop_eq_nil_of_le (show l.length ≤ ((l.length : Int)).toNat by simp)]

theorem apply_insert_clamped (l : List Char) (p : Int) (t : Option (List Char))
    (k : Option Int) :
    applyOperation l { type := "insert", position := p, text := t, length := k } =
      l.take (max 0 (min p (l.length : Int))).toNat ++ t.getD [] ++
        l.drop (max 0 (min p (l.length : Int))).toNat := by
  show (if p < 0 ∨ p > (l.length : Int) then
      jsSlice l 0 (max 0 (min p (l.length : Int))) ++ t.getD [] ++
        jsSliceFrom l (max 0 (min p (l.length : Int)))
    else jsSlice l 0 p ++ t.getD [] ++ jsSliceFrom l p) = _
  split
  · rw [jsSlice_zero l _ (le_max_left _ _), jsSliceFrom_nonneg l _ (le_max_left _ _)]
  · rename_i h
    push_neg at h
    rw [jsSlice_zero l p h.1, jsSliceFrom_nonneg l p h.1, min_eq_left h.2, max_eq_right h.1]

theorem apply_insert (l : List Char) (p : Int) (t : Option (List Char)) (k : Option Int)
    (hp : 0 ≤ p) (hpl : p ≤ (l.length : Int)) :
    applyOperation l { type := "insert", position := p, text := t, length := k } =
      l.take p.toNat ++ t.getD [] ++ l.drop p.toNat := by
  rw [apply_insert_clamped]
  have : max 0 (min p (l.length : Int)) = p := by omega
  rw [this]

theorem apply_retain (l : List Char) (p : Int) (t : Option (List Char)) (k : Option Int) :
    applyOperation l { type := "retain", position := p, text := t, length := k } = l := by
  unfold applyOperation
  simp

theorem apply_unknown (l : List Char) (ty : String) (p : Int) (t : Option (List Char))
    (k : Option Int) (h1 : ty ≠ "insert") (h2 : ty ≠ "delete") (h3 : ty ≠ "retain") :
    applyOperation l { type := ty, position := p, text := t, length := k } = l := by
  unfold applyOperation
  simp only [h1, h2, h3, if_false, reduceIte]

/-! ### Pointwise lookup toolkit for buffer equalities -/

theorem getElem?_append_if (l₁ l₂ : List α) (i : Nat) :
    (l₁ ++ l₂)[i]? = if i < l₁.length then l₁[i]? else l₂[i - l₁.length]? := by
  split
  · exact List.getElem?_append_left (by omega)
  · exact List.getElem?_append_right (by omega)

theorem getElem?_take_if (l : List α) (n : Nat) (i : Nat) :
    (l.take n)[i]? = if i < n then l[i]? else none := by
  split
  · exact List.getElem?_take_of_lt (by omega)
  · exact List.getElem?_eq_none (by simp [List.length_take]; omega)

/-! ### Branch characterizations of `transformOperation` -/

theorem transform_ins_ins (a b : Int) (tA tB : Option (List Char)) (kA kB : Option Int) :
    transformOperation { type := "insert", position := a, text := tA, length := kA }
        { type := "insert", position := b, text := tB, length := kB } =
      if a ≤ b then { type := "insert", position := a, text := tA, length := kA }
      else { type := "insert", position := a + ((tB.getD []).length : Int), text := tA,
             length := kA } := rfl

theorem transform_ins_del (a b : Int) (tA tB : Option (List Char)) (kA kB : Option Int) :
    transformOperation { type := "insert", position := a, text := tA, length := kA }
        { type := "delete", position := b, text := tB, length := kB } =
      if a ≤ b then { type := "insert", position := a, text := tA, length := kA }
      else if a ≥ b + kB.getD 0 then
        { type := "insert", position := a - kB.getD 0, text := tA, length := kA }
      else { type := "insert", position := b, text := tA, length := kA } := rfl

theorem transform_del_ins (a b : Int) (tA tB : Option (List Char)) (kA kB : Option Int) :
    transformOperation { type := "delete", position := a, text := tA, length := kA }
        { type := "insert", position := b, text := tB, length := kB } =
      if a ≥ b then
        { type := "delete", position := a + ((tB.getD []).length : Int), text := tA,
          length := kA }
      else if a + kA.getD 0 ≤ b then { type := "delete", position := a, text := tA, length := kA }
      else { type := "delete", position := a, text := tA,
             length := some (kA.getD 0 + ((tB.getD []).length : Int)) } := rfl

theorem transform_del_del (a b : Int) (tA tB : Option (List Char)) (kA kB : Option Int) :
    transformOperation { type := "delete", position := a, text := tA, length := kA }
        { type := "delete", position := b, text := tB, length := kB } =
      if a + kA.getD 0 ≤ b then { type := "delete", position := a, text := tA, length := kA }
      else if a ≥ b + kB.getD 0 then
        { type := "delete", position := a - kB.getD 0, text := tA, length := kA }
      else if kA.getD 0 - (min (a + kA.getD 0) (b + kB.getD 0) - max a b) ≤ 0 then
        { type := "retain", position := 0, text := none, length := some 0 }
      else
        { type := "delete", position := min a b, text := tA,
          length := some (kA.getD 0 - (min (a + kA.getD 0) (b + kB.getD 0) - max a b)) } := rfl

/-! ### Convergence of the transform algebra on the convergent pairs -/

set_option maxHeartbeats 1600000 in
theorem converge_del_del_le (l : List Char) (a b : Int) (tA tB : Option (List Char))
    (kA kB : Option Int)
    (ha0 : 0 ≤ a) (ham : 0 ≤ kA.getD 0) (haL : a + kA.getD 0 ≤ (l.length : Int))
    (hb0 : 0 ≤ b) (hbn : 0 ≤ kB.getD 0) (hbL : b + kB.getD 0 ≤ (l.length : Int))
    (hab : a ≤ b) :
    applyOperation (applyOperation l { type := "delete", position := a, text := tA, length := kA })
        (transformOperation { type := "delete", position := b, text := tB, length := kB }
          { type := "delete", position := a, text := tA, length := kA })
      = applyOperation
          (applyOperation l { type := "delete", position := b, text := tB, length := kB })
          (transformOperation { type := "delete", position := a, text := tA, length := kA }
            { type := "delete", position := b, text := tB, length := kB }) := by
  rw [apply_delete l a tA kA ha0 ham, apply_delete l b tB kB hb0 hbn,
    transform_del_del b a tB tA kB kA, transform_del_del a b tA tB kA kB]
  simp only [ge_iff_le]
  rcases le_total (a + kA.getD 0) (b + kB.getD 0) with hend | hend
  · rw [min_eq_left hend, min_eq_right hend, max_eq_right hab, max_eq_left hab,
      min_eq_left hab, min_eq_right hab]
    split_ifs <;> first
      | (exfalso; omega)
      | ((repeat first
            | rw [apply_retain]
            | rw [apply_delete _ _ _ _ (by (try simp only [Option.getD_some]); omega)
                  (by (try simp only [Option.getD_some]); omega)]);
         (try simp only [Option.getD_some]);
         apply List.ext_getElem?;
         intro i;
         simp only [getElem?_append_if, getElem?_take_if, List.getElem?_drop, List.length_take,
           List.length_drop, List.length_append];
         split_ifs <;> first
           | rfl
           | (exfalso; omega)
           | (congr 1; omega)
           | (rw [List.getElem?_eq_none (by omega)]))
  · rw [min_eq_right hend, min_eq_left hend, max_eq_right hab, max_eq_left hab,
      min_eq_left hab, min_eq_right hab]
    split_ifs <;> first
      | (exfalso; omega)
      | ((repeat first
            | rw [apply_retain]
            | rw [apply_delete _ _ _ _ (by (try simp only [Option.getD_some]); omega)
                  (by (try simp only [Option.getD_some]); omega)]);
         (try simp only [Option.getD_some]);
         apply List.ext_getElem?;
         intro i;
         simp only [getElem?_append_if, getElem?_take_if, List.getElem?_drop, List.length_take,
           List.length_drop, List.length_append];
         split_ifs <;> first
           | rfl
           | (exfalso; omega)
           | (congr 1; omega)
           | (rw [List.getElem?_eq_none (by omega)]))

set_option maxHeartbeats 1600000 in
theorem converge_del_del (l : List Char) (a b : Int) (tA tB : Option (List Char))
    (kA kB : Option Int)
    (ha0 : 0 ≤ a) (ham : 0 ≤ kA.getD 0) (haL : a + kA.getD 0 ≤ (l.length : Int))
    (hb0 : 0 ≤ b) (hbn : 0 ≤ kB.getD 0) (hbL : b + kB.getD 0 ≤ (l.length : Int)) :
    applyOperation (applyOperation l { type := "delete", position := a, text := tA, length := kA })
        (transformOperation { type := "delete", position := b, text := tB, length := kB }
          { type := "delete", position := a, text := tA, length := kA })
      = applyOperation
          (applyOperation l { type := "delete", position := b, text := tB, length := kB })
          (transformOperation { type := "delete", position := a, text := tA, length := kA }
            { type := "delete", position := b, text := tB, length := kB }) := by
  rcases le_total a b with hab | hab
  · exact converge_del_del_le l a b tA tB kA kB ha0 ham haL hb0 hbn hbL hab
  · exact (converge_del_del_le l b a tB tA kB kA hb0 hbn hbL ha0 ham haL hab).symm

set_option maxHeartbeats 1600000 in
theorem converge_ins_ins_lt (l : List Char) (a b : Int) (tA tB : Option (List Char))
    (kA kB : Option Int)
    (ha0 : 0 ≤ a) (haL : a ≤ (l.length : Int))
    (hb0 : 0 ≤ b) (hbL : b ≤ (l.length : Int)) (hab : a < b) :
    applyOperation (applyOperation l { type := "insert", position := a, text := tA, length := kA })
        (transformOperation { type := "insert", position := b, text := tB, length := kB }
          { type := "insert", position := a, text := tA, length := kA })
      = applyOperation
          (applyOperation l { type := "insert", position := b, text := tB, length := kB })
          (transformOperation { type := "insert", position := a, text := tA, length := kA }
            { type := "insert", position := b, text := tB, length := kB }) := by
  rw [apply_insert l a tA kA ha0 haL, apply_insert l b tB kB hb0 hbL,
    transform_ins_ins b a tB tA kB kA, transform_ins_ins a b tA tB kA kB]
  rw [if_neg (by omega), if_pos (by omega)]
  rw [apply_insert _ _ tB kB (by omega)
      (by simp only [List.length_append, List.length_take, List.length_drop]; omega)]
  rw [apply_insert _ a tA kA ha0
      (by simp only [List.length_append, List.length_take, List.length_drop]; omega)]
  apply List.ext_getElem?
  intro i
  simp only [getElem?_append_if, getElem?_take_if, List.getElem?_drop, List.length_take,
    List.length_drop, List.length_append]
  split_ifs <;> first
    | rfl
    | (exfalso; omega)
    | (congr 1; omega)
    | (rw [List.getElem?_eq_none (by omega)])

set_option maxHeartbeats 1600000 in
theorem converge_ins_del (l : List Char) (a b : Int) (tA tB : Option (List Char))
    (kA kB : Option Int)
    (ha0 : 0 ≤ a) (haL : a ≤ (l.length : Int))
    (hb0 : 0 ≤ b) (hbn : 0 ≤ kB.getD 0) (hbL : b + kB.getD 0 ≤ (l.length : Int))
    (h : a ≤ b ∨ b + kB.getD 0 ≤ a) :
    applyOperation (applyOperation l { type := "insert", position := a, text := tA, length := kA })
        (transformOperation { type := "delete", position := b, text := tB, length := kB }
          { type := "insert", position := a, text := tA, length := kA })
      = applyOperation
          (applyOperation l { type := "delete", position := b, text := tB, length := kB })
          (transformOperation { type := "insert", position := a, text := tA, length := kA }
            { type := "delete", position := b, text := tB, length := kB }) := by
  rw [apply_insert l a tA kA ha0 haL, apply_delete l b tB kB hb0 hbn]
  rcases le_or_lt a b with hc | hc
  · conv_lhs => rw [transform_del_ins b a tB tA kB kA, if_pos (show b ≥ a by omega)]
    conv_rhs => rw [transform_ins_del a b tA tB kA kB, if_pos hc]
    rw [apply_delete _ _ tB kB (by omega) hbn]
    rw [apply_insert _ a tA kA ha0
        (by simp only [List.length_append, List.length_take, List.length_drop]; omega)]
    apply List.ext_getElem?
    intro i
    simp only [getElem?_append_if, getElem?_take_if, List.getElem?_drop, List.length_take,
      List.length_drop, List.length_append]
    split_ifs <;> first
      | rfl
      | (exfalso; omega)
      | (congr 1; omega)
      | (rw [List.getElem?_eq_none (by omega)])
  · have h2 : b + kB.getD 0 ≤ a := by
      rcases h with h | h
      · omega
      · exact h
    conv_lhs => rw [transform_del_ins b a tB tA kB kA, if_neg (show ¬(b ≥ a) by omega),
      if_pos h2]
    conv_rhs => rw [transform_ins_del a b tA tB kA kB, if_neg (show ¬(a ≤ b) by omega),
      if_pos (show a ≥ b + kB.getD 0 by omega)]
    rw [apply_delete _ b tB kB hb0 hbn]
    rw [apply_insert _ _ tA kA (by omega)
        (by simp only [List.length_append, List.length_take, List.length_drop]; omega)]
    apply List.ext_getElem?
    intro i
    simp only [getElem?_append_if, getElem?_take_if, List.getElem?_drop, List.length_take,
      List.length_drop, List.length_append]
    split_ifs <;> first
      | rfl
      | (exfalso; omega)
      | (congr 1; omega)
      | (rw [List.getElem?_eq_none (by omega)])

set_option maxHeartbeats 1600000 in
theorem converge_del_ins (l : List Char) (a b : Int) (tA tB : Option (List Char))
    (kA kB : Option Int)
    (ha0 : 0 ≤ a) (ham : 0 ≤ kA.getD 0) (haL : a + kA.getD 0 ≤ (l.length : Int))
    (hb0 : 0 ≤ b) (hbL : b ≤ (l.length : Int))
    (h : b ≤ a ∨ a + kA.getD 0 ≤ b) :
    applyOperation (applyOperation l { type := "delete", position := a, text := tA, length := kA })
        (transformOperation { type := "insert", position := b, text := tB, length := kB }
          { type := "delete", position := a, text := tA, length := kA })
      = applyOperation
          (applyOperation l { type := "insert", position := b, text := tB, length := kB })
          (transformOperation { type := "delete", position := a, text := tA, length := kA }
            { type := "insert", position := b, text := tB, length := kB }) := by
  exact (converge_ins_del l b a tB tA kB kA hb0 hbL ha0 ham haL h).symm

/-! ### Claim C1: convergence of the transform algebra -/

/-- C1 counterexample: two inserts at the same position 1 of `"ab"`, with
texts `"X"` and `"Y"`, do not converge: one application order yields
`"aYXb"`, the other `"aXYb"`.  The claimed equation
`apply(apply(content,A), transform(B,A)) = apply(apply(content,B), transform(A,B))`
fails at this concrete input. -/
theorem C1_counterexample :
    applyOperation
        (applyOperation ['a', 'b'] { type := "insert", position := 1, text := some ['X'] })
        (transformOperation { type := "insert", position := 1, text := some ['Y'] }
          { type := "insert", position := 1, text := some ['X'] })
      ≠ applyOperation
          (applyOperation ['a', 'b'] { type := "insert", position := 1, text := some ['Y'] })
          (transformOperation { type := "insert", position := 1, text := some ['X'] }
            { type := "insert", position := 1, text := some ['Y'] }) := by decide

/-- C1 (amended): the convergence equation
`apply(apply(content,A), transform(B,A)) = apply(apply(content,B), transform(A,B))`
does not hold for every pair of insert/delete operations; it holds for every
`ConvergentPair`: two in-range inserts at distinct positions, an in-range
insert and an in-range delete whose range does not strictly contain the
insert position, and any two in-range deletes.  (Two inserts at the same
position, and an insert strictly inside a concurrent delete's range,
diverge.) -/
theorem C1_convergence_amended (l : List Char) (opA opB : TextOperation)
    (h : ConvergentPair l opA opB) :
    applyOperation (applyOperation l opA) (transformOperation opB opA)
      = applyOperation (applyOperation l opB) (transformOperation opA opB) := by
  obtain ⟨tyA, a, tA, kA⟩ := opA
  obtain ⟨tyB, b, tB, kB⟩ := opB
  rcases h with ⟨⟨hA, ha0, haL⟩, ⟨hB, hb0, hbL⟩, hne⟩ |
    ⟨⟨hA, ha0, haL⟩, ⟨hB, hb0, hbn, hbL⟩, hni⟩ |
    ⟨⟨hA, ha0, ham, haL⟩, ⟨hB, hb0, hbL⟩, hni⟩ |
    ⟨⟨hA, ha0, ham, haL⟩, ⟨hB, hb0, hbn, hbL⟩⟩
  · replace hA : tyA = "insert" := hA
    replace hB : tyB = "insert" := hB
    subst hA hB
    replace hne : a ≠ b := hne
    rcases lt_or_gt_of_ne hne with hlt | hgt
    · exact converge_ins_ins_lt l a b tA tB kA kB ha0 haL hb0 hbL hlt
    · exact (converge_ins_ins_lt l b a tB tA kB kA hb0 hbL ha0 haL hgt).symm
  · replace hA : tyA = "insert" := hA
    replace hB : tyB = "delete" := hB
    subst hA hB
    replace hni : ¬(b < a ∧ a < b + kB.getD 0) := hni
    exact converge_ins_del l a b tA tB kA kB ha0 haL hb0 hbn hbL (by omega)
  · replace hA : tyA = "delete" := hA
    replace hB : tyB = "insert" := hB
    subst hA hB
    replace hni : ¬(a < b ∧ b < a + kA.getD 0) := hni
    exact converge_del_ins l a b tA tB kA kB ha0 ham haL hb0 hbL (by omega)
  · replace hA : tyA = "delete" := hA
    replace hB : tyB = "delete" := hB
    subst hA hB
    exact converge_del_del l a b tA tB kA kB ha0 ham haL hb0 hbn hbL

/-- C1 witness: the amended convergence theorem applied to the two
overlapping in-range deletes of Scenario B on a concrete 10-character
buffer. -/
theorem C1_convergence_amended_witness :
    applyOperation
        (applyOperation ['0', '1', '2', '3', '4', '5', '6', '7', '8', '9']
          { type := "delete", position := 2, length := some 5 })
        (transformOperation { type := "delete", position := 0, length := some 5 }
          { type := "delete", position := 2, length := some 5 })
      = applyOperation
          (applyOperation ['0', '1', '2', '3', '4', '5', '6', '7', '8', '9']
            { type := "delete", position := 0, length := some 5 })
          (transformOperation { type := "delete", position := 2, length := some 5 }
            { type := "delete", position := 0, length := some 5 }) :=
  C1_convergence_amended ['0', '1', '2', '3', '4', '5', '6', '7', '8', '9']
    { type := "delete", position := 2, length := some 5 }
    { type := "delete", position := 0, length := some 5 }
    (by unfold ConvergentPair InRangeInsert InRangeDelete; decide)

/-! ### Claims C2-C5: the sequencer's version handling -/

/-- C2 counterexample: `staleOp`'s baseVersion 0 predates `staleState`'s
oldest retained history entry (version 2), yet `receiveOperation` does not
reject it: it returns a result, bumps the version and changes the content.
There is no stale-beyond-history rejection in the code. -/
theorem C2_counterexample :
    (∀ e ∈ staleState.history, staleOp.version < e.version) ∧
    (staleState.receiveOperation staleOp).1 ≠ none ∧
    (staleState.receiveOperation staleOp).2.version = staleState.version + 1 ∧
    (staleState.receiveOperation staleOp).2.content ≠ staleState.content := by decide

/-- C2 (amended): an operation whose baseVersion predates the oldest
retained history entry is not rejected; like every operation with
baseVersion below the current version it is transformed against the
retained entries only and applied, incrementing the version. -/
theorem C2_no_stale_rejection (s : ServerDocumentState) (op : DocumentOperation)
    (h : op.version < s.version) :
    (s.receiveOperation op).1.isSome ∧ (s.receiveOperation op).2.version = s.version + 1 := by
  unfold ServerDocumentState.receiveOperation
  rw [if_pos h]
  unfold ServerDocumentState.acceptOperation
  exact ⟨rfl, rfl⟩

/-- C2 witness: the amended statement at `staleState`/`staleOp`. -/
theorem C2_no_stale_rejection_witness :
    (staleState.receiveOperation staleOp).1.isSome ∧
      (staleState.receiveOperation staleOp).2.version = staleState.version + 1 :=
  C2_no_stale_rejection staleState staleOp (by decide)

/-- C3: an operation below the current version is transformed against
exactly the retained history entries with `version ≥ baseVersion` by other
users, in order, then applied; and Scenario A runs as specified: from
`"abc"` at version 0, accepting client 1's insert gives `"aXbc"` at
version 1, then client 2's delete is left untransformed and gives `"Xbc"`
at version 2. -/
theorem C3_transform_then_apply :
    (∀ (s : ServerDocumentState) (op : DocumentOperation), op.version < s.version →
      s.receiveOperation op = s.acceptOperation { op with operations :=
        ((s.history.filter
            (fun h => decide (h.version ≥ op.version) && (h.userId != op.userId))).foldl
          (fun transformed missed => transformDocumentOperation transformed missed.operations)
          op.operations) }) ∧
    (scenState.receiveOperation scenOp1).2.content = ['a', 'X', 'b', 'c'] ∧
    (scenState.receiveOperation scenOp1).2.version = 1 ∧
    ((scenState.receiveOperation scenOp1).2.receiveOperation scenOp2).1 =
      some { transformed := { scenOp2 with version := 2 },
             newContent := ['X', 'b', 'c'], newVersion := 2 } ∧
    ((scenState.receiveOperation scenOp1).2.receiveOperation scenOp2).2.content =
      ['X', 'b', 'c'] ∧
    ((scenState.receiveOperation scenOp1).2.receiveOperation scenOp2).2.version = 2 := by
  refine ⟨?_, by decide, by decide, by decide, by decide, by decide⟩
  intro s op h
  unfold ServerDocumentState.receiveOperation
  rw [if_pos h]

/-- C3 witness: the transform-then-apply equation at `staleState`/`staleOp`
(baseVersion 0 below current version 3). -/
theorem C3_transform_then_apply_witness :
    staleState.receiveOperation staleOp = staleState.acceptOperation { staleOp with operations :=
      ((staleState.history.filter
          (fun h => decide (h.version ≥ staleOp.version) && (h.userId != staleOp.userId))).foldl
        (fun transformed missed => transformDocumentOperation transformed missed.operations)
        staleOp.operations) } :=
  C3_transform_then_apply.1 staleState staleOp (by decide)

/-- C4: an operation whose baseVersion exceeds the current version is
rejected (`null` is returned) and the state — content, version and history —
is exactly the state before the call. -/
theorem C4_future_version_rejected (s : ServerDocumentState) (op : DocumentOperation)
    (h : op.version > s.version) :
    s.receiveOperation op = (none, s) := by
  unfold ServerDocumentState.receiveOperation
  rw [if_neg (by omega), if_pos h]

/-- C4 witness: a client claiming version 5 against a fresh version-0
document is rejected and the state is unchanged. -/
theorem C4_future_version_rejected_witness :
    ServerDocumentState.receiveOperation { content := ['a'], version := 0, history := [] }
        { id := "x", documentId := "d", userId := "u", version := 5,
          operations := [{ type := "insert", position := 0, text := some ['Q'] }],
          timestamp := 0 }
      = (none, { content := ['a'], version := 0, history := [] }) :=
  C4_future_version_rejected _ _ (by decide)

/-- C5: every accepted operation returns and stores version exactly
`previous version + 1` (also stamped on the canonical operation), and a
rejected operation leaves the state untouched — so across any sequence of
calls the version increases by exactly 1 per accepted operation and never
otherwise changes. -/
theorem C5_version_monotonic (s : ServerDocumentState) (op : DocumentOperation) :
    (∀ (r : ReceiveResult) (s2 : ServerDocumentState), s.receiveOperation op = (some r, s2) →
      r.newVersion = s.version + 1 ∧ s2.version = s.version + 1 ∧
        r.transformed.version = s.version + 1) ∧
    (∀ s2 : ServerDocumentState, s.receiveOperation op = (none, s2) → s2 = s) := by
  unfold ServerDocumentState.receiveOperation ServerDocumentState.acceptOperation
  constructor
  · intro r s2 heq
    split_ifs at heq
    · simp only [Prod.mk.injEq, Option.some.injEq] at heq
      obtain ⟨h1, h2⟩ := heq
      subst h1
      subst h2
      exact ⟨rfl, rfl, rfl⟩
    · simp at heq
    · simp only [Prod.mk.injEq, Option.some.injEq] at heq
      obtain ⟨h1, h2⟩ := heq
      subst h1
      subst h2
      exact ⟨rfl, rfl, rfl⟩
  · intro s2 heq
    split_ifs at heq
    · simp at heq
    · simp only [Prod.mk.injEq] at heq
      exact heq.2.symm
    · simp at heq

/-- C5 witness: accepting Scenario A's first operation on `"abc"` at
version 0 yields version 1 in the result, the state and the canonical
operation. -/
theorem C5_version_monotonic_witness :
    (1 : Int) = scenState.version + 1 ∧
      ({ content := ['a', 'X', 'b', 'c'], version := 1,
         history := [{ scenOp1 with version := 1 }] } : ServerDocumentState).version
        = scenState.version + 1 ∧
      ({ scenOp1 with version := 1 } : DocumentOperation).version = scenState.version + 1 :=
  (C5_version_monotonic scenState scenOp1).1
    { transformed := { scenOp1 with version := 1 },
      newContent := ['a', 'X', 'b', 'c'], newVersion := 1 }
    { content := ['a', 'X', 'b', 'c'], version := 1, history := [{ scenOp1 with version := 1 }] }
    (by decide)

/-! ### Claim C6: the bounded history -/

theorem jsSliceFrom_neg100 (l : List α) : jsSliceFrom l (-100) = lastN 100 l := by
  unfold jsSliceFrom jsSlice lastN
  simp only
  rw [if_pos (by omega), if_neg (by omega), min_self]
  simp only [Int.toNat_natCast, List.take_length]
  congr 1
  omega

theorem lastN_length_le (k : Nat) (l : List α) : (lastN k l).length ≤ k := by
  unfold lastN
  rw [List.length_drop]
  omega

theorem lastN_of_length_le (k : Nat) (l : List α) (h : l.length ≤ k) : lastN k l = l := by
  unfold lastN
  have : l.length - k = 0 := by omega
  rw [this, List.drop_zero]

theorem lastN_append_lastN (k : Nat) (x y : List α) :
    lastN k (lastN k x ++ y) = lastN k (x ++ y) := by
  unfold lastN
  rw [List.drop_append_eq_append_drop, List.drop_append_eq_append_drop]
  simp only [List.length_append, List.length_drop]
  rw [List.drop_drop]
  congr 1
  · congr 1
    omega
  · congr 1
    omega

theorem receive_some_history (s : ServerDocumentState) (op : DocumentOperation)
    (r : ReceiveResult) (s2 : ServerDocumentState) (h : s.receiveOperation op = (some r, s2)) :
    s2.history = lastN 100 (s.history ++ [r.transformed]) := by
  unfold ServerDocumentState.receiveOperation ServerDocumentState.acceptOperation at h
  split_ifs at h
  · simp only [Prod.mk.injEq, Option.some.injEq] at h
    obtain ⟨h1, h2⟩ := h
    subst h1
    subst h2
    simp only
    split
    · rw [jsSliceFrom_neg100]
    · rw [lastN_of_length_le _ _ (by omega)]
  · simp at h
  · simp only [Prod.mk.injEq, Option.some.injEq] at h
    obtain ⟨h1, h2⟩ := h
    subst h1
    subst h2
    simp only
    split
    · rw [jsSliceFrom_neg100]
    · rw [lastN_of_length_le _ _ (by omega)]

theorem receive_none_state (s : ServerDocumentState) (op : DocumentOperation)
    (s2 : ServerDocumentState) (h : s.receiveOperation op = (none, s2)) : s2 = s := by
  unfold ServerDocumentState.receiveOperation ServerDocumentState.acceptOperation at h
  split_ifs at h
  · simp at h
  · simp only [Prod.mk.injEq] at h
    exact h.2.symm
  · simp at h

theorem runOps_history (ops : List DocumentOperation) (s : ServerDocumentState)
    (hs : s.history.length ≤ 100) :
    (runOps s ops).1.history = lastN 100 (s.history ++ (runOps s ops).2) := by
  induction ops generalizing s with
  | nil =>
    simp only [runOps, List.append_nil]
    rw [lastN_of_length_le _ _ hs]
  | cons op rest ih =>
    rcases hrec : s.receiveOperation op with ⟨res, s1⟩
    rcases res with _ | r
    · have hs1 : s1 = s := receive_none_state s op s1 hrec
      simp only [runOps, hrec]
      rw [hs1]
      exact ih s hs
    · have h1 : s1.history = lastN 100 (s.history ++ [r.transformed]) :=
        receive_some_history s op r s1 hrec
      have hlen : s1.history.length ≤ 100 := by
        rw [h1]
        exact lastN_length_le 100 _
      simp only [runOps, hrec]
      rw [ih s1 hlen, h1, lastN_append_lastN]
      rw [List.append_assoc, List.singleton_append]

/-- C6: starting from a freshly constructed (hydrated) state, after any
sequence of calls the history is exactly the last 100 accepted canonical
operations (oldest evicted first): its length is `min N 100` for `N`
accepted operations, it equals the whole accepted sequence while `N ≤ 100`,
and its length is exactly 100 once `N > 100`. -/
theorem C6_bounded_history (content : List Char) (version : Int)
    (ops : List DocumentOperation) :
    (runOps { content := content, version := version, history := [] } ops).1.history
        = lastN 100 (runOps { content := content, version := version, history := [] } ops).2 ∧
    (runOps { content := content, version := version, history := [] } ops).1.history.length
        = min (runOps { content := content, version := version, history := [] } ops).2.length
            100 ∧
    ((runOps { content := content, version := version, history := [] } ops).2.length ≤ 100 →
      (runOps { content := content, version := version, history := [] } ops).1.history
        = (runOps { content := content, version := version, history := [] } ops).2) ∧
    (100 < (runOps { content := content, version := version, history := [] } ops).2.length →
      (runOps { content := content, version := version, history := [] } ops).1.history.length
        = 100) := by
  have h := runOps_history ops { content := content, version := version, history := [] }
    (by simp)
  rw [List.nil_append] at h
  refine ⟨h, ?_, ?_, ?_⟩
  · rw [h]
    unfold lastN
    rw [List.length_drop]
    omega
  · intro hle
    rw [h, lastN_of_length_le _ _ hle]
  · intro hgt
    rw [h]
    unfold lastN
    rw [List.length_drop]
    omega

/-- C6 witness: one accepted operation on a fresh `"abc"` document leaves a
history equal to the full accepted sequence. -/
theorem C6_bounded_history_witness :
    (runOps { content := ['a', 'b', 'c'], version := 0, history := [] } [scenOp1]).1.history
      = (runOps { content := ['a', 'b', 'c'], version := 0, history := [] } [scenOp1]).2 :=
  (C6_bounded_history ['a', 'b', 'c'] 0 [scenOp1]).2.2.1 (by decide)

/-! ### Claim C7: clamping in `applyOperation` -/

/-- C7 counterexample: a delete at the out-of-range position `-1` with
length 5 on `"abc"` is *not* clamped to remove `[0, 3)`: the clamped-range
reading demands the result `""`, but `applyOperation` follows JS `slice`
end-relative semantics and returns `"ab"`. -/
theorem C7_counterexample :
    applyOperation ['a', 'b', 'c'] { type := "delete", position := -1, length := some 5 }
        = ['a', 'b'] ∧
    specClampedDelete ['a', 'b', 'c'] (-1) 5 = [] ∧
    applyOperation ['a', 'b', 'c'] { type := "delete", position := -1, length := some 5 }
      ≠ specClampedDelete ['a', 'b', 'c'] (-1) 5 := by decide

/-- C7 (amended): inserts clamp every out-of-range position to
`[0, len(content)]` and splice there; deletes are clamped and truncated as
the spec describes only for `position ≥ 0` and `length ≥ 0` (they then
remove exactly `[position, min(position+length, len))`, never erring); a
delete with a negative position or negative length instead follows JS
`slice` semantics. -/
theorem C7_clamping_amended (l : List Char) (p : Int) (t : Option (List Char))
    (k : Option Int) :
    (applyOperation l { type := "insert", position := p, text := t, length := k }
        = l.take (max 0 (min p (l.length : Int))).toNat ++ t.getD [] ++
          l.drop (max 0 (min p (l.length : Int))).toNat) ∧
    (0 ≤ p → 0 ≤ k.getD 0 →
      applyOperation l { type := "delete", position := p, text := t, length := k }
        = specClampedDelete l p (k.getD 0)) := by
  constructor
  · exact apply_insert_clamped l p t k
  · intro hp hk
    rw [apply_delete l p t k hp hk]
    unfold specClampedDelete
    simp only
    rcases le_or_lt p (l.length : Int) with h1 | h1
    · rw [min_eq_left h1, max_eq_right hp]
      rcases le_or_lt (p + k.getD 0) (l.length : Int) with h2 | h2
      · rw [min_eq_left h2, max_eq_right (by omega : (0:Int) ≤ p + k.getD 0),
          max_eq_right (by omega : p ≤ p + k.getD 0)]
        have he : (p + k.getD 0).toNat = p.toNat + (k.getD 0).toNat := by omega
        rw [he]
      · rw [min_eq_right h2.le, max_eq_right (Int.natCast_nonneg _),
          max_eq_right h1]
        rw [List.drop_eq_nil_of_le (by omega),
          List.drop_eq_nil_of_le (by simp)]
    · rw [min_eq_right h1.le, max_eq_right (Int.natCast_nonneg _),
        min_eq_right (by omega : (l.length : Int) ≤ p + k.getD 0),
        max_eq_right (Int.natCast_nonneg _), max_self]
      rw [List.take_of_length_le (by omega), List.take_of_length_le (by simp),
        List.drop_eq_nil_of_le (by omega), List.drop_eq_nil_of_le (by simp)]

/-- C7 witness: the amended delete behavior at position 1, length 5 on
`"abc"` (length truncated to the end of the buffer). -/
theorem C7_clamping_amended_witness :
    applyOperation ['a', 'b', 'c']
        { type := "delete", position := 1, text := none, length := some 5 }
      = specClampedDelete ['a', 'b', 'c'] 1 ((some (5 : Int)).getD 0) :=
  (C7_clamping_amended ['a', 'b', 'c'] 1 none (some 5)).2 (by decide) (by decide)

/-! ### Claim C8: transforming overlapping deletes -/

/-- C8: transforming a delete A against an overlapping delete B (their
ranges intersect) subtracts the overlap length from A's length and moves A's
start to `min(posA, posB)`; a non-positive resulting length degenerates to a
no-op retain.  In particular `delete(pos=2,len=5)` transformed against
`delete(pos=0,len=5)` is `delete(pos=0,len=2)`. -/
theorem C8_overlapping_deletes (a b : Int) (tA tB : Option (List Char)) (kA kB : Option Int)
    (h1 : b < a + kA.getD 0) (h2 : a < b + kB.getD 0) :
    (0 < kA.getD 0 - (min (a + kA.getD 0) (b + kB.getD 0) - max a b) →
      transformOperation { type := "delete", position := a, text := tA, length := kA }
          { type := "delete", position := b, text := tB, length := kB }
        = { type := "delete", position := min a b, text := tA,
            length := some (kA.getD 0 - (min (a + kA.getD 0) (b + kB.getD 0) - max a b)) }) ∧
    (kA.getD 0 - (min (a + kA.getD 0) (b + kB.getD 0) - max a b) ≤ 0 →
      transformOperation { type := "delete", position := a, text := tA, length := kA }
          { type := "delete", position := b, text := tB, length := kB }
        = { type := "retain", position := 0, text := none, length := some 0 }) ∧
    transformOperation { type := "delete", position := 2, text := none, length := some 5 }
        { type := "delete", position := 0, text := none, length := some 5 }
      = { type := "delete", position := 0, text := none, length := some 2 } := by
  refine ⟨?_, ?_, by decide⟩
  · intro h3
    rw [transform_del_del, if_neg (by omega), if_neg (by omega), if_neg (by omega)]
  · intro h3
    rw [transform_del_del, if_neg (by omega), if_neg (by omega), if_pos h3]

/-- C8 witness: the general overlap rule applied at `delete(2,5)` against
`delete(0,5)`. -/
theorem C8_overlapping_deletes_witness :
    transformOperation { type := "delete", position := 2, text := some ['q'], length := some 5 }
        { type := "delete", position := 0, text := none, length := some 5 }
      = { type := "delete", position := 0, text := some ['q'], length := some 2 } := by
  have h := (C8_overlapping_deletes 2 0 (some ['q']) none (some 5) (some 5)
    (by decide) (by decide)).1 (by decide)
  exact h.trans (by decide)

/-! ### Claim C9: flush-and-retire on last leave -/

/-- C9: when the departing socket is the last participant of a document,
the standalone server's `handleLeave` removes the Presence (the whole room),
broadcasts the removal, issues a database save of the document's current
content and version, and deletes the in-memory document state, so a later
join rehydrates from storage. -/
theorem C9_last_leave_flush_retire
    (roomUsers : List (String × List (String × UserPresence)))
    (documentStates : List (String × StandaloneDocState))
    (socketId : String) (documentId : String) (user : UserPresence) (st : StandaloneDocState)
    (hroom : mapLookup documentId roomUsers = some [(socketId, user)])
    (hdoc : mapLookup documentId documentStates = some st) :
    handleLeave roomUsers documentStates socketId documentId =
      (mapRemove documentId roomUsers, mapRemove documentId documentStates,
       [SocketEvent.presenceLeft documentId user.userId,
        SocketEvent.presenceUpdate documentId [],
        SocketEvent.dbSaveRequest documentId st.content st.version]) := by
  unfold handleLeave
  rw [hroom]
  have hsock : mapLookup socketId [(socketId, user)] = some user := by
    simp [mapLookup]
  have hrem : mapRemove socketId [(socketId, user)] = [] := by
    simp [mapRemove]
  dsimp only
  rw [hsock]
  dsimp only
  rw [hrem]
  simp only [List.length_nil, List.map_nil, reduceIte]
  rw [hdoc]
  rfl

/-- C9 witness: the flush-and-retire equation at the concrete single-user
room `leaveRoomUsers` with document state `leaveDocStates`. -/
theorem C9_last_leave_flush_retire_witness :
    handleLeave leaveRoomUsers leaveDocStates "sock1" "doc1" =
      ([], [],
       [SocketEvent.presenceLeft "doc1" "u1",
        SocketEvent.presenceUpdate "doc1" [],
        SocketEvent.dbSaveRequest "doc1" ['h', 'i'] 7]) := by
  have h := C9_last_leave_flush_retire leaveRoomUsers leaveDocStates "sock1" "doc1"
    leaveUser { content := ['h', 'i'], version := 7, lastSave := 0 } (by decide) (by decide)
  exact h.trans (by decide)

/-! ### Claim C10: totality of `applyOperation` -/

theorem jsSlice_zero_neg (l : List α) (p : Int) (hp : p < 0) :
    jsSlice l 0 p = l.take ((l.length : Int) + p).toNat := by
  unfold jsSlice
  simp only
  rw [if_neg (by omega), if_pos hp]
  rw [min_eq_left (Int.natCast_nonneg _), Int.toNat_zero, List.drop_zero]
  congr 1
  omega

theorem jsSliceFrom_negIdx (l : List α) (p : Int) (hp : p < 0) :
    jsSliceFrom l p = l.drop ((l.length : Int) + p).toNat := by
  unfold jsSliceFrom jsSlice
  simp only
  rw [if_pos hp, if_neg (by omega), min_self]
  simp only [Int.toNat_natCast, List.take_length]
  congr 1
  omega

/-- C10: `applyOperation` is total by construction (it is a Lean function)
and handles every degenerate payload without touching the buffer: a
`"retain"` returns the content unchanged, an unrecognized kind returns the
content unchanged, an insert with absent `text` behaves as inserting the
empty string, a delete with absent `length` leaves the content unchanged at
every (even negative) position, and the `"retain"` no-op produced by
transforming a fully-overlapped delete leaves the content unchanged. -/
theorem C10_apply_total (l : List Char) (p : Int) (t : Option (List Char)) (k : Option Int)
    (ty : String) :
    applyOperation l { type := "retain", position := p, text := t, length := k } = l ∧
    (ty ≠ "insert" → ty ≠ "delete" → ty ≠ "retain" →
      applyOperation l { type := ty, position := p, text := t, length := k } = l) ∧
    applyOperation l { type := "insert", position := p, text := none, length := k }
      = applyOperation l { type := "insert", position := p, text := some [], length := k } ∧
    applyOperation l { type := "delete", position := p, text := t, length := none } = l ∧
    applyOperation l
        (transformOperation { type := "delete", position := 0, text := none, length := some 1 }
          { type := "delete", position := 0, text := none, length := some 1 }) = l := by
  refine ⟨apply_retain l p t k, apply_unknown l ty p t k, ?_, ?_, ?_⟩
  · rw [apply_insert_clamped, apply_insert_clamped]
    rfl
  · show jsSlice l 0 p ++ jsSliceFrom l (min (p + 0) (l.length : Int)) = l
    rw [add_zero]
    rcases le_or_lt 0 p with hp | hp
    · rw [jsSlice_zero l p hp]
      rcases le_or_lt p (l.length : Int) with h1 | h1
      · rw [min_eq_left h1, jsSliceFrom_nonneg l p hp, List.take_append_drop]
      · rw [min_eq_right h1.le, jsSliceFrom_nonneg l _ (Int.natCast_nonneg _)]
        rw [List.take_of_length_le (by omega), List.drop_eq_nil_of_le (by simp),
          List.append_nil]
    · rw [jsSlice_zero_neg l p hp, min_eq_left (by omega), jsSliceFrom_negIdx l p hp,
        List.take_append_drop]
  · rw [(by decide :
        transformOperation { type := "delete", position := 0, text := none, length := some 1 }
            { type := "delete", position := 0, text := none, length := some 1 }
          = { type := "retain", position := 0, text := none, length := some 0 }),
      apply_retain]

/-- C10 witness: an operation of unrecognized kind `"shuffle"` leaves the
content unchanged. -/
theorem C10_apply_total_witness :
    applyOperation ['a', 'b'] { type := "shuffle", position := 0, text := none, length := none }
      = ['a', 'b'] :=
  (C10_apply_total ['a', 'b'] 0 none none "shuffle").2.1 (by decide) (by decide) (by decide)
